import Mathlib

/-!
Verification of the Price/Volume/Mix bridge decomposition implemented by
`calculate_bridge_mix_steps` in `sales_dashboard_with_validation.py`.

The Python function receives a dataframe of transaction rows (each carrying a
year, a group key, a revenue and a quantity), a list of years and a grouping
column.  For each adjacent pair of the sorted year list it aggregates the two
years' rows by group key (an outer join, absent sides filled with 0), and
decomposes the total revenue change into a volume effect, a price effect and a
residual mix effect.

The embedding below models a dataframe as a `List (Row G)` where `G` is the
type of group keys, and performs all arithmetic over `ℚ` (the Python code uses
floats; over the rationals the algebraic structure of the computation is
exact).
-/

namespace SalesDashboard

/-- One transaction row of the dataframe: its `Year`, its value in the chosen
grouping column, its `Revenue` and its `Quantity`. -/
structure Row (G : Type) where
  year : Int
  group : G
  revenue : ℚ
  quantity : ℚ
  deriving DecidableEq

/-- One entry of the list returned by `calculate_bridge_mix_steps`: the dict
`{'start_year': y0, 'end_year': y1, 'volume': ..., 'price': ..., 'mix': ...,
'start_val': total_r0, 'end_val': total_r1}` (the redundant string `label` is
presentation only and omitted). -/
structure BridgeStep where
  start_year : Int
  end_year : Int
  volume : ℚ
  price : ℚ
  mix : ℚ
  start_val : ℚ
  end_val : ℚ
  deriving DecidableEq

/-- Placeholder step used as the default of `List.getD`. -/
def dummyStep : BridgeStep := ⟨0, 0, 0, 0, 0, 0, 0⟩

variable {G : Type} [DecidableEq G]

/-- `df[df['Year'] == y]`: the rows of one year. -/
def perYear (rows : List (Row G)) (y : Int) : List (Row G) :=
  rows.filter (fun r => decide (r.year = y))

/-- The distinct group keys of year `y`: the index of the grouped frame
`d0`/`d1` produced by `groupby(group_col)`. -/
def groupsOf (rows : List (Row G)) (y : Int) : List G :=
  ((perYear rows y).map (·.group)).dedup

/-- `d0['Revenue'].sum()`: the total revenue of year `y` (grouping then
summing the group sums gives the plain sum over the year's rows). -/
def yearRev (rows : List (Row G)) (y : Int) : ℚ :=
  ((perYear rows y).map (·.revenue)).sum

/-- `d0['Quantity'].sum()`: the total quantity of year `y`. -/
def yearQty (rows : List (Row G)) (y : Int) : ℚ :=
  ((perYear rows y).map (·.quantity)).sum

/-- The summed revenue of group `g` in year `y` (`groupby(group_col).agg` on
the year's rows; `0` when the group is absent, matching `fillna(0)` after the
outer merge). -/
def revG (rows : List (Row G)) (y : Int) (g : G) : ℚ :=
  (((perYear rows y).filter (fun r => decide (r.group = g))).map (·.revenue)).sum

/-- The summed quantity of group `g` in year `y`. -/
def qtyG (rows : List (Row G)) (y : Int) (g : G) : ℚ :=
  (((perYear rows y).filter (fun r => decide (r.group = g))).map (·.quantity)).sum

/-- The guarded division used throughout the bridge:
`np.where(q > 0, r / q, 0)` for the per-group prices `P0`/`P1`, and
`total_r0 / total_q0 if total_q0 > 0 else 0` for `avg_p0`. -/
def gPrice (r q : ℚ) : ℚ := if 0 < q then r / q else 0

/-- The keys of `pd.merge(d0, d1, on=group_col, how='outer')`: each group key
appearing in either year, once. -/
def mergedGroups (rows : List (Row G)) (y0 y1 : Int) : List G :=
  (groupsOf rows y0 ++ groupsOf rows y1).dedup

/-- `vol_effect = (total_q1 - total_q0) * avg_p0`, with
`avg_p0 = total_r0 / total_q0 if total_q0 > 0 else 0`. -/
def volEffect (rows : List (Row G)) (y0 y1 : Int) : ℚ :=
  (yearQty rows y1 - yearQty rows y0) * gPrice (yearRev rows y0) (yearQty rows y0)

/-- `price_effect = merged['Price_Impact'].sum()` where
`Price_Impact = (P1 - P0) * Quantity_1` per group of the outer join. -/
def priceEffect (rows : List (Row G)) (y0 y1 : Int) : ℚ :=
  ((mergedGroups rows y0 y1).map (fun g =>
    (gPrice (revG rows y1 g) (qtyG rows y1 g)
      - gPrice (revG rows y0 g) (qtyG rows y0 g)) * qtyG rows y1 g)).sum

/-- `mix_effect = total_variance - vol_effect - price_effect` where
`total_variance = total_r1 - total_r0`: the residual of the decomposition. -/
def mixEffect (rows : List (Row G)) (y0 y1 : Int) : ℚ :=
  (yearRev rows y1 - yearRev rows y0) - volEffect rows y0 y1 - priceEffect rows y0 y1

/-- The body of the `for i in range(len(years) - 1)` loop of
`calculate_bridge_mix_steps`, for one adjacent pair `(y0, y1)`. -/
def mkStep (rows : List (Row G)) (y0 y1 : Int) : BridgeStep :=
  ⟨y0, y1, volEffect rows y0 y1, priceEffect rows y0 y1, mixEffect rows y0 y1,
    yearRev rows y0, yearRev rows y1⟩

/-- The loop of `calculate_bridge_mix_steps`: one step per adjacent pair of
the (already sorted) year list. -/
def stepsAux (rows : List (Row G)) : List Int → List BridgeStep
  | [] => []
  | y0 :: l =>
    match l with
    | [] => []
    | y1 :: _ => mkStep rows y0 y1 :: stepsAux rows l

/-- `calculate_bridge_mix_steps(df, years, group_col)`:
returns `[]` when fewer than 2 years are supplied, otherwise sorts the years
ascending and emits one `BridgeStep` per adjacent pair. -/
def calculate_bridge_mix_steps (rows : List (Row G)) (years : List Int) :
    List BridgeStep :=
  if years.length < 2 then []
  else stepsAux rows (List.insertionSort (· ≤ ·) years)

/-- The spec's reading of a period total: the sum, over all groups of the
period, of the group's summed quantity ("sums of quantity over all groups"). -/
def groupTotalQty (rows : List (Row G)) (y : Int) : ℚ :=
  ((groupsOf rows y).map (fun g => qtyG rows y g)).sum

/-- The spec's reading of a period's total revenue, summed group by group. -/
def groupTotalRev (rows : List (Row G)) (y : Int) : ℚ :=
  ((groupsOf rows y).map (fun g => revG rows y g)).sum

/-- The spec's reading of the outer join's key set: the distinct group keys
among the rows of the two periods taken together. -/
def claimGroups (rows : List (Row G)) (y0 y1 : Int) : List G :=
  ((perYear rows y0 ++ perYear rows y1).map (·.group)).dedup

/-- Scenario of spec §8.5: period 0 has group A (rev 100, qty 10); period 1
has group A (rev 110, qty 10) and the new group B (rev 50, qty 5).
Group A is key 0, group B is key 1, the periods are years 0 and 1. -/
def specRows : List (Row ℕ) :=
  [⟨0, 0, 100, 10⟩, ⟨1, 0, 110, 10⟩, ⟨1, 1, 50, 5⟩]

theorem mkStep_start_year (rows : List (Row G)) (y0 y1 : Int) :
    (mkStep rows y0 y1).start_year = y0 := rfl

theorem mkStep_end_year (rows : List (Row G)) (y0 y1 : Int) :
    (mkStep rows y0 y1).end_year = y1 := rfl

theorem mkStep_volume (rows : List (Row G)) (y0 y1 : Int) :
    (mkStep rows y0 y1).volume = volEffect rows y0 y1 := rfl

theorem mkStep_price (rows : List (Row G)) (y0 y1 : Int) :
    (mkStep rows y0 y1).price = priceEffect rows y0 y1 := rfl

theorem mkStep_mix (rows : List (Row G)) (y0 y1 : Int) :
    (mkStep rows y0 y1).mix = mixEffect rows y0 y1 := rfl

theorem mkStep_start_val (rows : List (Row G)) (y0 y1 : Int) :
    (mkStep rows y0 y1).start_val = yearRev rows y0 := rfl

theorem mkStep_end_val (rows : List (Row G)) (y0 y1 : Int) :
    (mkStep rows y0 y1).end_val = yearRev rows y1 := rfl

theorem stepsAux_nil (rows : List (Row G)) : stepsAux rows [] = [] := rfl

theorem stepsAux_single (rows : List (Row G)) (y0 : Int) :
    stepsAux rows [y0] = [] := rfl

theorem stepsAux_cons2 (rows : List (Row G)) (y0 y1 : Int) (l : List Int) :
    stepsAux rows (y0 :: y1 :: l) = mkStep rows y0 y1 :: stepsAux rows (y1 :: l) := rfl

theorem mem_stepsAux {rows : List (Row G)} :
    ∀ {l : List Int} {step : BridgeStep}, step ∈ stepsAux rows l →
      ∃ y0 y1, step = mkStep rows y0 y1 := by
  intro l
  induction l with
  | nil => intro step h; simp [stepsAux_nil] at h
  | cons y0 l ih =>
    intro step h
    cases l with
    | nil => simp [stepsAux_single] at h
    | cons y1 m =>
      rw [stepsAux_cons2] at h
      rcases List.mem_cons.mp h with h | h
      · exact ⟨y0, y1, h⟩
      · exact ih h

theorem stepsAux_length (rows : List (Row G)) :
    ∀ l : List Int, (stepsAux rows l).length = l.length - 1 := by
  intro l
  induction l with
  | nil => rfl
  | cons y0 l ih =>
    cases l with
    | nil => rfl
    | cons y1 m =>
      rw [stepsAux_cons2, List.length_cons, ih]
      simp

theorem stepsAux_getD (rows : List (Row G)) :
    ∀ (l : List Int) (i : ℕ), i < (stepsAux rows l).length →
      (stepsAux rows l).getD i dummyStep = mkStep rows (l.getD i 0) (l.getD (i + 1) 0) := by
  intro l
  induction l with
  | nil => intro i hi; simp [stepsAux_nil] at hi
  | cons y0 l ih =>
    intro i hi
    cases l with
    | nil => simp [stepsAux_single] at hi
    | cons y1 m =>
      cases i with
      | zero => simp [stepsAux_cons2]
      | succ j =>
        rw [stepsAux_cons2] at hi ⊢
        simp only [List.getD_cons_succ]
        apply ih
        simpa using hi

theorem mem_calculate_bridge_mix_steps {rows : List (Row G)} {years : List Int}
    {step : BridgeStep} (h : step ∈ calculate_bridge_mix_steps rows years) :
    ∃ y0 y1, step = mkStep rows y0 y1 := by
  unfold calculate_bridge_mix_steps at h
  split at h
  · simp at h
  · exact mem_stepsAux h

theorem specRows_steps : calculate_bridge_mix_steps specRows [0, 1] =
    [⟨0, 1, 50, 60, -50, 100, 160⟩] := by
  norm_num [calculate_bridge_mix_steps, stepsAux, mkStep, volEffect, priceEffect,
    mixEffect, yearQty, yearRev, revG, qtyG, gPrice, mergedGroups, groupsOf, perYear,
    specRows, List.insertionSort, List.orderedInsert,
    List.dedup_cons_of_mem, List.dedup_cons_of_not_mem, BridgeStep.mk.injEq]

/-- C1: in every step returned by `calculate_bridge_mix_steps`, the three
effects reconcile the revenue delta exactly (over exact rational arithmetic):
`volume + price + mix = end_val - start_val`, for any rows, including rows
with zero-quantity groups, because the mix effect is the residual. -/
theorem bridge_reconciliation (rows : List (Row G)) (years : List Int)
    (step : BridgeStep) (hs : step ∈ calculate_bridge_mix_steps rows years) :
    step.volume + step.price + step.mix = step.end_val - step.start_val := by
  obtain ⟨y0, y1, rfl⟩ := mem_calculate_bridge_mix_steps hs
  rw [mkStep_volume, mkStep_price, mkStep_mix, mkStep_start_val, mkStep_end_val,
    mixEffect]
  ring

/-- Witness for C1 at the spec's concrete scenario (`specRows`). -/
theorem bridge_reconciliation_witness :
    (⟨0, 1, 50, 60, -50, 100, 160⟩ : BridgeStep).volume
        + (⟨0, 1, 50, 60, -50, 100, 160⟩ : BridgeStep).price
        + (⟨0, 1, 50, 60, -50, 100, 160⟩ : BridgeStep).mix
      = (⟨0, 1, 50, 60, -50, 100, 160⟩ : BridgeStep).end_val
        - (⟨0, 1, 50, 60, -50, 100, 160⟩ : BridgeStep).start_val :=
  bridge_reconciliation specRows [0, 1] _ (by rw [specRows_steps]; simp)

/-- C2: outer-join semantics on the spec's concrete scenario: period 0 has
only group A (rev 100, qty 10); period 1 has group A (rev 110, qty 10) and
the new group B (rev 50, qty 5).  The single step has start_total 100,
end_total 160, volume 50, price 60 and mix -50. -/
theorem outer_join_scenario : calculate_bridge_mix_steps specRows [0, 1] =
    [⟨0, 1, 50, 60, -50, 100, 160⟩] :=
  specRows_steps

theorem sum_map_ite_zero_of_not_mem (a : G) (c : ℚ) :
    ∀ l : List G, a ∉ l → (l.map (fun x => if a = x then c else 0)).sum = 0 := by
  intro l
  induction l with
  | nil => simp
  | cons x xs ih =>
    intro h
    simp only [List.mem_cons, not_or] at h
    simp [h.1, ih h.2]

theorem sum_map_ite_zero_of_nodup (a : G) (c : ℚ) :
    ∀ l : List G, l.Nodup → a ∈ l → (l.map (fun x => if a = x then c else 0)).sum = c := by
  intro l
  induction l with
  | nil => simp
  | cons x xs ih =>
    intro hn ha
    rcases List.mem_cons.mp ha with rfl | ha2
    · simp [sum_map_ite_zero_of_not_mem a c xs (List.nodup_cons.mp hn).1]
    · have hax : a ≠ x := by
        rintro rfl
        exact (List.nodup_cons.mp hn).1 ha2
      simp [hax, ih (List.nodup_cons.mp hn).2 ha2]

theorem sum_map_add_dist {α : Type} (l : List α) (f h : α → ℚ) :
    (l.map (fun x => f x + h x)).sum = (l.map f).sum + (l.map h).sum := by
  induction l with
  | nil => simp
  | cons x xs ih =>
    simp only [List.map_cons, List.sum_cons, ih]
    ring

-- Grouping the rows of a list by their group key and adding up the per-group
-- sums recovers the plain sum over the list (the pandas groupby partition).
theorem sum_over_groups (f : Row G → ℚ) :
    ∀ l : List (Row G),
      (((l.map (·.group)).dedup).map
        (fun g => ((l.filter (fun r => decide (r.group = g))).map f).sum)).sum
      = (l.map f).sum := by
  intro l
  induction l with
  | nil => simp
  | cons a l ih =>
    have hmap : (a :: l).map (·.group) = a.group :: l.map (·.group) := rfl
    by_cases h : a.group ∈ l.map (·.group)
    · rw [hmap, List.dedup_cons_of_mem h]
      have hfilter : ∀ g ∈ (l.map (·.group)).dedup,
          (((a :: l).filter (fun r => decide (r.group = g))).map f).sum
            = (if a.group = g then f a else 0)
              + ((l.filter (fun r => decide (r.group = g))).map f).sum := by
        intro g _
        by_cases hag : a.group = g
        · simp [List.filter_cons, hag]
        · simp [List.filter_cons, hag]
      rw [List.map_congr_left hfilter, sum_map_add_dist,
        sum_map_ite_zero_of_nodup a.group (f a) _ (List.nodup_dedup _)
          (List.mem_dedup.mpr h), ih]
      simp
    · rw [hmap, List.dedup_cons_of_not_mem h]
      simp only [List.map_cons, List.sum_cons]
      have h1 : (((a :: l).filter (fun r => decide (r.group = a.group))).map f).sum
          = f a := by
        have hnil : l.filter (fun r => decide (r.group = a.group)) = [] := by
          rw [List.filter_eq_nil_iff]
          intro r hr
          simp only [decide_eq_true_eq]
          intro hrg
          exact h (hrg ▸ List.mem_map_of_mem (·.group) hr)
        simp [List.filter_cons, hnil]
      have h2 : ∀ g ∈ (l.map (·.group)).dedup,
          (((a :: l).filter (fun r => decide (r.group = g))).map f).sum
            = ((l.filter (fun r => decide (r.group = g))).map f).sum := by
        intro g hg
        have hne : a.group ≠ g := by
          rintro rfl
          exact h (List.mem_dedup.mp hg)
        simp [List.filter_cons, hne]
      rw [h1, List.map_congr_left h2, ih]

theorem groupTotalQty_eq_yearQty (rows : List (Row G)) (y : Int) :
    groupTotalQty rows y = yearQty rows y :=
  sum_over_groups (·.quantity) (perYear rows y)

theorem groupTotalRev_eq_yearRev (rows : List (Row G)) (y : Int) :
    groupTotalRev rows y = yearRev rows y :=
  sum_over_groups (·.revenue) (perYear rows y)

/-- C3: in every returned step, the volume effect is
`(total_q1 - total_q0) * avg_p0`, where each period total is the sum of the
per-group quantity sums over all the period's groups, and `avg_p0` is
`total_r0 / total_q0` when `total_q0 > 0` and `0` otherwise. -/
theorem volume_effect_formula (rows : List (Row G)) (years : List Int)
    (step : BridgeStep) (hs : step ∈ calculate_bridge_mix_steps rows years) :
    step.volume =
      (groupTotalQty rows step.end_year - groupTotalQty rows step.start_year)
        * (if 0 < groupTotalQty rows step.start_year
           then groupTotalRev rows step.start_year / groupTotalQty rows step.start_year
           else 0) := by
  obtain ⟨y0, y1, rfl⟩ := mem_calculate_bridge_mix_steps hs
  rw [mkStep_volume, mkStep_start_year, mkStep_end_year, volEffect, gPrice,
    groupTotalQty_eq_yearQty, groupTotalQty_eq_yearQty, groupTotalRev_eq_yearRev]

/-- Witness for C3 at the spec's concrete scenario (`specRows`). -/
theorem volume_effect_formula_witness :
    (⟨0, 1, 50, 60, -50, 100, 160⟩ : BridgeStep).volume =
      (groupTotalQty specRows (⟨0, 1, 50, 60, -50, 100, 160⟩ : BridgeStep).end_year
          - groupTotalQty specRows (⟨0, 1, 50, 60, -50, 100, 160⟩ : BridgeStep).start_year)
        * (if 0 < groupTotalQty specRows (⟨0, 1, 50, 60, -50, 100, 160⟩ : BridgeStep).start_year
           then groupTotalRev specRows (⟨0, 1, 50, 60, -50, 100, 160⟩ : BridgeStep).start_year
             / groupTotalQty specRows (⟨0, 1, 50, 60, -50, 100, 160⟩ : BridgeStep).start_year
           else 0) :=
  volume_effect_formula specRows [0, 1] _ (by rw [specRows_steps]; simp)

theorem mergedGroups_perm_claimGroups (rows : List (Row G)) (y0 y1 : Int) :
    (mergedGroups rows y0 y1).Perm (claimGroups rows y0 y1) := by
  refine (List.perm_ext_iff_of_nodup (List.nodup_dedup _) (List.nodup_dedup _)).mpr ?_
  intro x
  simp only [mergedGroups, claimGroups, groupsOf, List.mem_dedup, List.mem_append,
    List.mem_map]
  constructor
  · rintro (⟨r, hr, rfl⟩ | ⟨r, hr, rfl⟩)
    · exact ⟨r, Or.inl hr, rfl⟩
    · exact ⟨r, Or.inr hr, rfl⟩
  · rintro ⟨r, hr | hr, rfl⟩
    · exact Or.inl ⟨r, hr, rfl⟩
    · exact Or.inr ⟨r, hr, rfl⟩

/-- C4: in every returned step, the price effect is the sum, over the groups
of the outer join of the two periods, of `(price1 - price0) * quantity1`,
each per-group price being the guarded ratio of the group's summed revenue
and quantity (end-period quantity is the weight). -/
theorem price_effect_formula (rows : List (Row G)) (years : List Int)
    (step : BridgeStep) (hs : step ∈ calculate_bridge_mix_steps rows years) :
    step.price =
      ((claimGroups rows step.start_year step.end_year).map (fun g =>
        (gPrice (revG rows step.end_year g) (qtyG rows step.end_year g)
          - gPrice (revG rows step.start_year g) (qtyG rows step.start_year g))
          * qtyG rows step.end_year g)).sum := by
  obtain ⟨y0, y1, rfl⟩ := mem_calculate_bridge_mix_steps hs
  rw [mkStep_price, mkStep_start_year, mkStep_end_year, priceEffect]
  exact (List.Perm.map _ (mergedGroups_perm_claimGroups rows y0 y1)).sum_eq

/-- Witness for C4 at the spec's concrete scenario (`specRows`). -/
theorem price_effect_formula_witness :
    (⟨0, 1, 50, 60, -50, 100, 160⟩ : BridgeStep).price =
      ((claimGroups specRows (⟨0, 1, 50, 60, -50, 100, 160⟩ : BridgeStep).start_year
          (⟨0, 1, 50, 60, -50, 100, 160⟩ : BridgeStep).end_year).map (fun g =>
        (gPrice (revG specRows (⟨0, 1, 50, 60, -50, 100, 160⟩ : BridgeStep).end_year g)
            (qtyG specRows (⟨0, 1, 50, 60, -50, 100, 160⟩ : BridgeStep).end_year g)
          - gPrice (revG specRows (⟨0, 1, 50, 60, -50, 100, 160⟩ : BridgeStep).start_year g)
            (qtyG specRows (⟨0, 1, 50, 60, -50, 100, 160⟩ : BridgeStep).start_year g))
          * qtyG specRows (⟨0, 1, 50, 60, -50, 100, 160⟩ : BridgeStep).end_year g)).sum :=
  price_effect_formula specRows [0, 1] _ (by rw [specRows_steps]; simp)

/-- C5: with `N ≥ 2` supplied periods the result has exactly `N - 1` steps,
one per adjacent pair of the ascending-sorted period sequence, in period
order: step `i` goes from the `i`-th to the `(i+1)`-th sorted period. -/
theorem step_count_and_order (rows : List (Row G)) (years : List Int)
    (h : 2 ≤ years.length) (i : ℕ)
    (hi : i + 1 < (List.insertionSort (· ≤ ·) years).length) :
    (calculate_bridge_mix_steps rows years).length = years.length - 1 ∧
    List.Sorted (· ≤ ·) (List.insertionSort (· ≤ ·) years) ∧
    (List.insertionSort (· ≤ ·) years).Perm years ∧
    ((calculate_bridge_mix_steps rows years).getD i dummyStep).start_year
      = (List.insertionSort (· ≤ ·) years).getD i 0 ∧
    ((calculate_bridge_mix_steps rows years).getD i dummyStep).end_year
      = (List.insertionSort (· ≤ ·) years).getD (i + 1) 0 := by
  have hlen : (List.insertionSort (· ≤ ·) years).length = years.length :=
    (List.perm_insertionSort _ years).length_eq
  have hguard : ¬ years.length < 2 := by omega
  have hcalc : calculate_bridge_mix_steps rows years
      = stepsAux rows (List.insertionSort (· ≤ ·) years) := by
    unfold calculate_bridge_mix_steps
    rw [if_neg hguard]
  have hslen : (stepsAux rows (List.insertionSort (· ≤ ·) years)).length
      = years.length - 1 := by
    rw [stepsAux_length, hlen]
  have hi2 : i < (stepsAux rows (List.insertionSort (· ≤ ·) years)).length := by
    rw [hlen] at hi
    rw [hslen]
    omega
  refine ⟨by rw [hcalc, hslen], List.sorted_insertionSort _ _,
    List.perm_insertionSort _ _, ?_, ?_⟩
  · rw [hcalc, stepsAux_getD _ _ _ hi2, mkStep_start_year]
  · rw [hcalc, stepsAux_getD _ _ _ hi2, mkStep_end_year]

/-- Witness for C5: the unsorted year list `[1, 0]` over `specRows`. -/
theorem step_count_and_order_witness :
    (calculate_bridge_mix_steps specRows [1, 0]).length = ([1, 0] : List Int).length - 1 ∧
    List.Sorted (· ≤ ·) (List.insertionSort (· ≤ ·) ([1, 0] : List Int)) ∧
    (List.insertionSort (· ≤ ·) ([1, 0] : List Int)).Perm [1, 0] ∧
    ((calculate_bridge_mix_steps specRows [1, 0]).getD 0 dummyStep).start_year
      = (List.insertionSort (· ≤ ·) ([1, 0] : List Int)).getD 0 0 ∧
    ((calculate_bridge_mix_steps specRows [1, 0]).getD 0 dummyStep).end_year
      = (List.insertionSort (· ≤ ·) ([1, 0] : List Int)).getD 1 0 :=
  step_count_and_order specRows [1, 0] (by norm_num) 0 (by decide)

/-- C6: with fewer than 2 periods the function returns the empty list (it is
a total function of its inputs, so no error is possible), for any rows. -/
theorem insufficient_periods (rows : List (Row G)) (years : List Int)
    (h : years.length < 2) : calculate_bridge_mix_steps rows years = [] := by
  unfold calculate_bridge_mix_steps
  rw [if_pos h]

/-- Witness for C6: a single supplied period. -/
theorem insufficient_periods_witness :
    calculate_bridge_mix_steps specRows [7] = [] :=
  insufficient_periods specRows [7] (by norm_num)

/-- A group with quantity 0 but revenue 7 in period 0, and quantity 2,
revenue 10 in period 1. -/
def zeroQtyRows : List (Row ℕ) := [⟨0, 0, 7, 0⟩, ⟨1, 0, 10, 2⟩]

/-- C7: every division of the bridge is guarded: a zero quantity makes the
corresponding price (`P0`/`P1` per group, and `avg_p0` per period — all
computed by `gPrice`) resolve to 0 instead of failing.  On `zeroQtyRows`
(group quantity 0 with revenue 7 in period 0, and the period total quantity
also 0) the pipeline yields a well-defined step whose price effect
`(5 - 0) * 2 = 10` uses `price0 = 0` and whose volume effect uses
`avg_p0 = 0`. -/
theorem guarded_division :
    (∀ r : ℚ, gPrice r 0 = 0) ∧
    calculate_bridge_mix_steps zeroQtyRows [0, 1] = [⟨0, 1, 0, 10, -7, 7, 10⟩] := by
  constructor
  · intro r
    simp [gPrice]
  · norm_num [calculate_bridge_mix_steps, stepsAux, mkStep, volEffect, priceEffect,
      mixEffect, yearQty, yearRev, revG, qtyG, gPrice, mergedGroups, groupsOf, perYear,
      zeroQtyRows, List.insertionSort, List.orderedInsert,
      List.dedup_cons_of_mem, List.dedup_cons_of_not_mem, BridgeStep.mk.injEq]

/-- A single group (key 0) with revenue 100 but quantity 0 in period 0, and
revenue 50, quantity 5 in period 1. -/
def churnedRevRows : List (Row ℕ) := [⟨0, 0, 100, 0⟩, ⟨1, 0, 50, 5⟩]

/-- Counterexample to C8 as stated: `churnedRevRows` has exactly one group
across the two periods, yet the step's mix effect is `-100`, not `0`: with
`quantity0 = 0` the guard makes `avg_p0 = 0` and `price0 = 0`, so the volume
and price effects no longer absorb the whole single-group variance. -/
theorem single_group_mix_counterexample :
    (churnedRevRows.map (fun r => r.group)).dedup = [0] ∧
    calculate_bridge_mix_steps churnedRevRows [0, 1]
      = [⟨0, 1, 0, 50, -100, 100, 50⟩] ∧
    (⟨0, 1, 0, 50, -100, 100, 50⟩ : BridgeStep).mix ≠ 0 := by
  refine ⟨?_, ?_, by norm_num⟩
  · simp [churnedRevRows]
  · norm_num [calculate_bridge_mix_steps, stepsAux, mkStep, volEffect, priceEffect,
      mixEffect, yearQty, yearRev, revG, qtyG, gPrice, mergedGroups, groupsOf, perYear,
      churnedRevRows, List.insertionSort, List.orderedInsert,
      List.dedup_cons_of_mem, List.dedup_cons_of_not_mem, BridgeStep.mk.injEq]

theorem eq_nil_or_eq_singleton {α : Type} {l : List α} {g : α} (hn : l.Nodup)
    (ha : ∀ x ∈ l, x = g) : l = [] ∨ l = [g] := by
  cases l with
  | nil => exact Or.inl rfl
  | cons x xs =>
    right
    have hx : x = g := ha x (List.mem_cons_self x xs)
    subst hx
    have hxs : xs = [] := by
      cases xs with
      | nil => rfl
      | cons y ys =>
        have hy : y = x := ha y (by simp)
        have hmem : x ∈ y :: ys := by
          rw [hy]
          exact List.mem_cons_self x ys
        exact absurd hmem (List.nodup_cons.mp hn).1
    rw [hxs]

theorem filter_group_of_all {rows : List (Row G)} {g : G} {y : Int}
    (hg : ∀ r ∈ perYear rows y, r.group = g) :
    (perYear rows y).filter (fun r => decide (r.group = g)) = perYear rows y := by
  rw [List.filter_eq_self]
  intro r hr
  simp only [decide_eq_true_eq]
  exact hg r hr

theorem revG_of_all_group {rows : List (Row G)} {g : G} {y : Int}
    (hg : ∀ r ∈ perYear rows y, r.group = g) : revG rows y g = yearRev rows y := by
  unfold revG yearRev
  rw [filter_group_of_all hg]

theorem qtyG_of_all_group {rows : List (Row G)} {g : G} {y : Int}
    (hg : ∀ r ∈ perYear rows y, r.group = g) : qtyG rows y g = yearQty rows y := by
  unfold qtyG yearQty
  rw [filter_group_of_all hg]

-- With one group across the two periods' rows, the mix effect vanishes
-- provided each period either has a positive total quantity or no revenue at
-- all (the amended C8 hypothesis).
theorem mixEffect_single_group {rows : List (Row G)} {g : G} {y0 y1 : Int}
    (hg0 : ∀ r ∈ perYear rows y0, r.group = g)
    (hg1 : ∀ r ∈ perYear rows y1, r.group = g)
    (h0 : 0 < yearQty rows y0 ∨ yearRev rows y0 = 0)
    (h1 : 0 < yearQty rows y1 ∨ yearRev rows y1 = 0) :
    mixEffect rows y0 y1 = 0 := by
  have hall : ∀ x ∈ mergedGroups rows y0 y1, x = g := by
    intro x hx
    simp only [mergedGroups, groupsOf, List.mem_dedup, List.mem_append,
      List.mem_map] at hx
    rcases hx with ⟨r, hr, rfl⟩ | ⟨r, hr, rfl⟩
    · exact hg0 r hr
    · exact hg1 r hr
  have hnd : (mergedGroups rows y0 y1).Nodup := List.nodup_dedup _
  rcases eq_nil_or_eq_singleton hnd hall with hm | hm
  · have hnil : groupsOf rows y0 ++ groupsOf rows y1 = [] := by
      rw [← List.dedup_eq_nil]
      exact hm
    have h0nil : perYear rows y0 = [] := by
      have hh := (List.append_eq_nil.mp hnil).1
      simp only [groupsOf, List.dedup_eq_nil, List.map_eq_nil_iff] at hh
      exact hh
    have h1nil : perYear rows y1 = [] := by
      have hh := (List.append_eq_nil.mp hnil).2
      simp only [groupsOf, List.dedup_eq_nil, List.map_eq_nil_iff] at hh
      exact hh
    simp [mixEffect, volEffect, priceEffect, yearRev, yearQty, h0nil, h1nil, hm]
  · rw [mixEffect, volEffect, priceEffect, hm]
    simp only [List.map_cons, List.map_nil, List.sum_cons, List.sum_nil, add_zero]
    rw [revG_of_all_group hg0, revG_of_all_group hg1, qtyG_of_all_group hg0,
      qtyG_of_all_group hg1]
    unfold gPrice
    by_cases hq0 : 0 < yearQty rows y0 <;> by_cases hq1 : 0 < yearQty rows y1
    · rw [if_pos hq0, if_pos hq1]
      have h0ne : yearQty rows y0 ≠ 0 := ne_of_gt hq0
      have h1ne : yearQty rows y1 ≠ 0 := ne_of_gt hq1
      field_simp
      ring
    · rw [if_pos hq0, if_neg hq1, h1.resolve_left hq1]
      have h0ne : yearQty rows y0 ≠ 0 := ne_of_gt hq0
      field_simp
      ring
    · rw [if_neg hq0, if_pos hq1, h0.resolve_left hq0]
      have h1ne : yearQty rows y1 ≠ 0 := ne_of_gt hq1
      field_simp
    · rw [if_neg hq0, if_neg hq1, h0.resolve_left hq0, h1.resolve_left hq1]
      ring

/-- C8 (amended): if exactly one group appears among the rows of a step's
two periods (the rest of the input may hold any groups), that step's mix
effect is 0 **provided** each of the two periods has a positive total
quantity or zero total revenue.  (The proviso is forced by
`single_group_mix_counterexample`: a period holding revenue on quantity 0
leaves a nonzero residual.) -/
theorem single_group_mix (g : G) (rows : List (Row G)) (years : List Int)
    (step : BridgeStep) (hs : step ∈ calculate_bridge_mix_steps rows years)
    (hg0 : ∀ r ∈ perYear rows step.start_year, r.group = g)
    (hg1 : ∀ r ∈ perYear rows step.end_year, r.group = g)
    (h0 : 0 < yearQty rows step.start_year ∨ yearRev rows step.start_year = 0)
    (h1 : 0 < yearQty rows step.end_year ∨ yearRev rows step.end_year = 0) :
    step.mix = 0 := by
  obtain ⟨y0, y1, rfl⟩ := mem_calculate_bridge_mix_steps hs
  rw [mkStep_start_year] at h0 hg0
  rw [mkStep_end_year] at h1 hg1
  rw [mkStep_mix]
  exact mixEffect_single_group hg0 hg1 h0 h1

/-- A single group (key 0) with positive quantity in both periods. -/
def singleRows : List (Row ℕ) := [⟨0, 0, 100, 10⟩, ⟨1, 0, 110, 10⟩]

theorem singleRows_steps : calculate_bridge_mix_steps singleRows [0, 1]
    = [⟨0, 1, 0, 10, 0, 100, 110⟩] := by
  norm_num [calculate_bridge_mix_steps, stepsAux, mkStep, volEffect, priceEffect,
    mixEffect, yearQty, yearRev, revG, qtyG, gPrice, mergedGroups, groupsOf, perYear,
    singleRows, List.insertionSort, List.orderedInsert,
    List.dedup_cons_of_mem, List.dedup_cons_of_not_mem, BridgeStep.mk.injEq]

/-- Witness for the amended C8 at `singleRows`. -/
theorem single_group_mix_witness :
    (⟨0, 1, 0, 10, 0, 100, 110⟩ : BridgeStep).mix = 0 :=
  single_group_mix 0 singleRows [0, 1] _
    (by rw [singleRows_steps]; simp)
    (by intro r hr; simp [perYear, singleRows] at hr; subst hr; rfl)
    (by intro r hr; simp [perYear, singleRows] at hr; subst hr; rfl)
    (Or.inl (by norm_num [yearQty, perYear, singleRows]))
    (Or.inl (by norm_num [yearQty, perYear, singleRows]))

/-- The spec scenario with the two period labels swapped, so that the old end
period becomes the start period and vice versa. -/
def swappedRows : List (Row ℕ) :=
  [⟨1, 0, 100, 10⟩, ⟨0, 0, 110, 10⟩, ⟨0, 1, 50, 5⟩]

theorem swappedRows_steps : calculate_bridge_mix_steps swappedRows [0, 1]
    = [⟨0, 1, -160 / 3, -10, 10 / 3, 160, 100⟩] := by
  norm_num [calculate_bridge_mix_steps, stepsAux, mkStep, volEffect, priceEffect,
    mixEffect, yearQty, yearRev, revG, qtyG, gPrice, mergedGroups, groupsOf, perYear,
    swappedRows, List.insertionSort, List.orderedInsert,
    List.dedup_cons_of_mem, List.dedup_cons_of_not_mem, BridgeStep.mk.injEq]

/-- C9: the decomposition is asymmetric.  On the spec scenario (`specRows`,
effects 50 / 60 / -50), swapping which period is start and which is end
(`swappedRows`) gives effects -160/3 / -10 / 10/3, which are not the
negations of the originals: the volume effect uses the start period's
blended price and the price effect uses end-period quantities as weights. -/
theorem asymmetric_decomposition :
    ¬ (((calculate_bridge_mix_steps swappedRows [0, 1]).getD 0 dummyStep).volume
          = -(((calculate_bridge_mix_steps specRows [0, 1]).getD 0 dummyStep).volume)
        ∧ ((calculate_bridge_mix_steps swappedRows [0, 1]).getD 0 dummyStep).price
          = -(((calculate_bridge_mix_steps specRows [0, 1]).getD 0 dummyStep).price)
        ∧ ((calculate_bridge_mix_steps swappedRows [0, 1]).getD 0 dummyStep).mix
          = -(((calculate_bridge_mix_steps specRows [0, 1]).getD 0 dummyStep).mix)) := by
  rw [specRows_steps, swappedRows_steps]
  norm_num

/-- C10: consecutive steps chain: step `i`'s end total and step `i+1`'s start
total are both the total revenue of the shared period, so the waterfall's
totals telescope. -/
theorem chaining_invariant (rows : List (Row G)) (years : List Int) (i : ℕ)
    (h : i + 1 < (calculate_bridge_mix_steps rows years).length) :
    ((calculate_bridge_mix_steps rows years).getD i dummyStep).end_val
      = ((calculate_bridge_mix_steps rows years).getD (i + 1) dummyStep).start_val := by
  unfold calculate_bridge_mix_steps at h ⊢
  by_cases hlt : years.length < 2
  · rw [if_pos hlt] at h
    simp at h
  · rw [if_neg hlt] at h ⊢
    have h1 : i < (stepsAux rows (List.insertionSort (· ≤ ·) years)).length := by
      omega
    rw [stepsAux_getD _ _ _ h1, stepsAux_getD _ _ _ h, mkStep_end_val,
      mkStep_start_val]

/-- Three periods over the spec scenario extended with a year-2 row. -/
def threeYearRows : List (Row ℕ) :=
  [⟨0, 0, 100, 10⟩, ⟨1, 0, 110, 10⟩, ⟨1, 1, 50, 5⟩, ⟨2, 0, 120, 10⟩]

/-- Witness for C10 at `threeYearRows` with periods `[0, 1, 2]`. -/
theorem chaining_invariant_witness :
    ((calculate_bridge_mix_steps threeYearRows [0, 1, 2]).getD 0 dummyStep).end_val
      = ((calculate_bridge_mix_steps threeYearRows [0, 1, 2]).getD 1 dummyStep).start_val :=
  chaining_invariant threeYearRows [0, 1, 2] 0
    (by norm_num [calculate_bridge_mix_steps, stepsAux_cons2, stepsAux_single,
      List.insertionSort, List.orderedInsert])
